import Mathlib

/-!
Shallow embedding of the task-tracking service in `app/app_orm.py`
(pydantic schemas `TaskBase`/`TaskCreate`/`TaskUpdate`, SQLAlchemy `Task`
model, and the route handlers `get_tasks`, `get_task`, `create_task`,
`update_task`, `delete_task`), together with theorems settling the frozen
claims about the specification.

Modelling conventions:
- The SQLite store is a list of rows in insertion (rowid) order plus the
  next autoincrement id.  Id assignment is modelled as a monotonically
  increasing counter (per the spec's "never reused" identity rule; the
  actual assignment happens inside SQLite, outside this repository).
- `datetime.fromisoformat` acceptance is abstracted as a parameter
  `isoOk : String -> Bool`; no claim depends on which strings parse.
- Current time (`datetime.now().isoformat()`) is an explicit parameter.
- Request payloads model JSON field presence with `Option`; a field that
  is present always carries a value (an explicitly-null `title` would
  violate the NOT NULL column constraint and no claim involves explicit
  nulls).
- SQL three-valued logic on NULL `details`/`due_date` is embedded by the
  corresponding `Option` matches (a NULL comparison filters the row out).
- SQLAlchemy `contains` (SQL LIKE) is modelled as substring matching on
  code points; no claim depends on LIKE's ASCII case folding.
-/

/-- Error taxonomy at the HTTP boundary: 422 pydantic/query-constraint
validation errors (with the failing field names), the 400
`HTTPException` raised for a bad `sort`/`order` query parameter, and 404. -/
inductive ApiError where
  | validation (fields : List String)
  | invalidQueryParam (msg : String)
  | notFound
deriving DecidableEq

deriving instance DecidableEq for Except

/-- Raw create payload (`TaskCreate` input), with pydantic defaults. -/
structure TaskCreateIn where
  title : String
  details : Option String := none
  is_done : Bool := false
  priority : Int := 1
  due_date : Option String := none
deriving DecidableEq

/-- Validated create payload (the `TaskCreate` object after pydantic
field constraints and validators ran). -/
structure TaskCreate where
  title : String
  details : Option String
  is_done : Bool
  priority : Int
  due_date : Option String
deriving DecidableEq

/-- Raw update payload (`TaskUpdate` input); `none` means the field is
absent from the JSON body (pydantic "unset"). -/
structure TaskUpdateIn where
  title : Option String := none
  details : Option String := none
  is_done : Option Bool := none
  priority : Option Int := none
  due_date : Option String := none
deriving DecidableEq

/-- Validated update payload (the `TaskUpdate` object). -/
structure TaskUpdateV where
  title : Option String
  details : Option String
  is_done : Option Bool
  priority : Option Int
  due_date : Option String
deriving DecidableEq

/-- A stored row of the `tasks` table.  `is_done` is the 0/1 integer
column, `created_at`/`updated_at`/`due_date` are the string columns. -/
structure TaskRec where
  id : Nat
  title : String
  details : Option String
  is_done : Nat
  priority : Int
  due_date : Option String
  created_at : String
  updated_at : Option String
deriving DecidableEq

/-- The database: rows in insertion order and the next autoincrement id. -/
structure Store where
  tasks : List TaskRec
  nextId : Nat
deriving DecidableEq

/-- Prefix test on code-point lists (helper for substring matching). -/
def subAt : List Char → List Char → Bool
  | [], _ => true
  | _ :: _, [] => false
  | a :: as, b :: bs => a == b && subAt as bs

/-- Infix test on code-point lists. -/
def subIn (n : List Char) : List Char → Bool
  | [] => n.isEmpty
  | c :: rest => subAt n (c :: rest) || subIn n rest

/-- Substring containment, modelling SQL `LIKE means contains(needle)`. -/
def containsSub (hay needle : String) : Bool := subIn needle.data hay.data

/-- Strict lexicographic order on code-point lists (SQLite BINARY collation). -/
def strLtAux : List Char → List Char → Bool
  | [], [] => false
  | [], _ :: _ => true
  | _ :: _, [] => false
  | a :: as, b :: bs =>
    if a.val < b.val then true
    else if b.val < a.val then false
    else strLtAux as bs

/-- Strict string order used by ORDER BY. -/
def strLt (a b : String) : Bool := strLtAux a.data b.data

/-- Non-strict string order used by the `due_date` comparisons. -/
def strLe (a b : String) : Bool := !(strLt b a)

/-- `due_date` sort key order, ascending: SQL NULLs sort first. -/
def optStrLtNullsFirst : Option String → Option String → Bool
  | none, none => false
  | none, some _ => true
  | some _, none => false
  | some a, some b => strLt a b

/-- Python `str.strip()` on code points (kernel-computable model of the
whitespace trimming done by the validators). -/
def pyStrip (s : String) : String :=
  String.mk (((s.data.dropWhile Char.isWhitespace).reverse.dropWhile Char.isWhitespace).reverse)

/-- Title checks shared by `TaskBase.validate_title` and
`TaskUpdate.validate_title`: pydantic `Field` bounds `min_length=3`,
`max_length=200` run on the raw value, then the custom validator strips
and re-checks the minimum.  Returns `true` when the field FAILS. -/
def fieldErrTitle (v : String) : Bool :=
  if v.length < 3 then true
  else if v.length > 200 then true
  else if (pyStrip v).length < 3 then true
  else false

/-- `details` check: only the `Field(max_length=1000)` bound (raw value). -/
def detailsFail : Option String → Bool
  | none => false
  | some s => if s.length > 1000 then true else false

/-- `TaskBase.validate_details` normalization on create: strip, and map
the empty string to absent. -/
def detailsNorm : Option String → Option String
  | none => none
  | some s => if pyStrip s = "" then none else some (pyStrip s)

/-- Create-side `priority` checks: `Field(ge=1, le=3)` then the custom
`validate_priority` membership test. -/
def priorityFail (p : Int) : Bool :=
  if p < 1 then true
  else if p > 3 then true
  else if p = 1 ∨ p = 2 ∨ p = 3 then false
  else true

/-- Update-side `priority` check: only `Field(ge=1, le=3)`
(`TaskUpdate` declares no custom priority validator). -/
def priorityFailU : Option Int → Bool
  | none => false
  | some p => if p < 1 then true else if p > 3 then true else false

/-- `validate_due_date`: replace `Z` with an offset and require the
abstract ISO-8601 parser to accept. -/
def dueFail (isoOk : String → Bool) : Option String → Bool
  | none => false
  | some s => if isoOk (s.replace "Z" "+00:00") then false else true

/-- All failing fields of a create payload, in pydantic declaration
order (fail-complete validation). -/
def createErrors (isoOk : String → Bool) (inp : TaskCreateIn) : List String :=
  (if fieldErrTitle inp.title then ["title"] else []) ++
  (if detailsFail inp.details then ["details"] else []) ++
  (if priorityFail inp.priority then ["priority"] else []) ++
  (if dueFail isoOk inp.due_date then ["due_date"] else [])

/-- `TaskCreate` validation: collect all field errors; on success return
the normalized object (title trimmed, empty details mapped to absent). -/
def validate_create (isoOk : String → Bool) (inp : TaskCreateIn) :
    Except ApiError TaskCreate :=
  match createErrors isoOk inp with
  | [] => .ok { title := pyStrip inp.title, details := detailsNorm inp.details,
                is_done := inp.is_done, priority := inp.priority,
                due_date := inp.due_date }
  | errs => .error (.validation errs)

/-- Update-side title check (validator runs only on present values). -/
def fieldErrTitleU : Option String → Bool
  | none => false
  | some v => fieldErrTitle v

/-- All failing fields of an update payload.  Note: `TaskUpdate` has no
`validate_details` validator, so present `details` is only length-checked,
never trimmed or normalized. -/
def updateErrors (isoOk : String → Bool) (u : TaskUpdateIn) : List String :=
  (if fieldErrTitleU u.title then ["title"] else []) ++
  (if detailsFail u.details then ["details"] else []) ++
  (if priorityFailU u.priority then ["priority"] else []) ++
  (if dueFail isoOk u.due_date then ["due_date"] else [])

/-- `TaskUpdate` validation: on success the present title is trimmed;
all other present fields pass through unchanged. -/
def validate_update (isoOk : String → Bool) (u : TaskUpdateIn) :
    Except ApiError TaskUpdateV :=
  match updateErrors isoOk u with
  | [] => .ok { title := u.title.map pyStrip, details := u.details,
                is_done := u.is_done, priority := u.priority,
                due_date := u.due_date }
  | errs => .error (.validation errs)

/-- The row inserted by `create_task`: `is_done` encoded 0/1,
`created_at := now`, `updated_at := None`. -/
def mkTaskRec (i : Nat) (now : String) (t : TaskCreate) : TaskRec :=
  { id := i, title := t.title, details := t.details,
    is_done := if t.is_done then 1 else 0, priority := t.priority,
    due_date := t.due_date, created_at := now, updated_at := none }

/-- `db.query(Task).filter(Task.id == i).first()` on a row list. -/
def findById : List TaskRec → Nat → Option TaskRec
  | [], _ => none
  | t :: ts, i => if t.id = i then some t else findById ts i

/-- Row lookup on the store. -/
def findTask (s : Store) (i : Nat) : Option TaskRec := findById s.tasks i

/-- `POST /tasks`: pydantic validation, then insert with a fresh id. -/
def create_task (isoOk : String → Bool) (now : String) (inp : TaskCreateIn)
    (s : Store) : Except ApiError (TaskRec × Store) :=
  match validate_create isoOk inp with
  | .error e => .error e
  | .ok t =>
    let r := mkTaskRec s.nextId now t
    .ok (r, { tasks := s.tasks ++ [r], nextId := s.nextId + 1 })

/-- The merge-patch of `update_task`: `dict(exclude_unset=True)` then
`setattr` per present field (`is_done` re-encoded 0/1), and
`updated_at` set to the current time unconditionally. -/
def applyUpdate (now : String) (u : TaskUpdateV) (t : TaskRec) : TaskRec :=
  { t with
    title := match u.title with | some v => v | none => t.title,
    details := match u.details with | some v => some v | none => t.details,
    is_done := match u.is_done with | some b => if b then 1 else 0 | none => t.is_done,
    priority := match u.priority with | some p => p | none => t.priority,
    due_date := match u.due_date with | some v => some v | none => t.due_date,
    updated_at := some now }

/-- Commit of the mutated ORM row: the first row with the given id is
replaced in place. -/
def replaceFirst : List TaskRec → Nat → TaskRec → List TaskRec
  | [], _, _ => []
  | t :: ts, i, t2 => if t.id = i then t2 :: ts else t :: replaceFirst ts i t2

/-- `PUT /tasks/{id}`: the body is validated by FastAPI/pydantic while
parsing the request, BEFORE the handler's not-found lookup runs. -/
def update_task (isoOk : String → Bool) (now : String) (i : Nat)
    (u : TaskUpdateIn) (s : Store) : Except ApiError (TaskRec × Store) :=
  match validate_update isoOk u with
  | .error e => .error e
  | .ok uv =>
    match findTask s i with
    | none => .error .notFound
    | some t =>
      let t2 := applyUpdate now uv t
      .ok (t2, { tasks := replaceFirst s.tasks i t2, nextId := s.nextId })

/-- `db.delete` of the looked-up row. -/
def removeFirst : List TaskRec → Nat → List TaskRec
  | [], _ => []
  | t :: ts, i => if t.id = i then ts else t :: removeFirst ts i

/-- `DELETE /tasks/{id}`. -/
def delete_task (i : Nat) (s : Store) : Except ApiError Store :=
  match findTask s i with
  | none => .error .notFound
  | some _ => .ok { tasks := removeFirst s.tasks i, nextId := s.nextId }

/-- `GET /tasks/{id}`. -/
def get_task (i : Nat) (s : Store) : Except ApiError TaskRec :=
  match findTask s i with
  | none => .error .notFound
  | some t => .ok t

/-- Query parameters of `GET /tasks`, with the route's `Query` defaults. -/
structure ListParams where
  q : Option String := none
  is_done : Option Bool := none
  priority : Option Int := none
  due_before : Option String := none
  due_after : Option String := none
  sort : String := "created_at"
  order : String := "asc"
  offset : Nat := 0
  limit : Nat := 10
deriving DecidableEq

/-- `Task.title.contains(q) | Task.details.contains(q)`; a NULL
`details` column makes its disjunct unknown, which filters out. -/
def matchQ (qs : String) (t : TaskRec) : Bool :=
  containsSub t.title qs ||
    (match t.details with | some d => containsSub d qs | none => false)

/-- The `if q:` filter: skipped when absent or empty (Python truthiness). -/
def qGuard : Option String → TaskRec → Bool
  | none, _ => true
  | some s, t => if s = "" then true else matchQ s t

/-- The `if is_done is not None:` filter. -/
def doneGuard : Option Bool → TaskRec → Bool
  | none, _ => true
  | some b, t => t.is_done == (if b then 1 else 0)

/-- The `if priority:` filter: a 0 value is falsy and skips the filter. -/
def prGuard : Option Int → TaskRec → Bool
  | none, _ => true
  | some p0, t => if p0 = 0 then true else t.priority == p0

/-- The `if due_before:` filter (`due_date <= due_before`): skipped for
absent or empty values; a NULL `due_date` row never passes. -/
def beforeGuard : Option String → TaskRec → Bool
  | none, _ => true
  | some d, t =>
    if d = "" then true
    else match t.due_date with | some x => strLe x d | none => false

/-- The `if due_after:` filter (`due_date >= due_after`). -/
def afterGuard : Option String → TaskRec → Bool
  | none, _ => true
  | some d, t =>
    if d = "" then true
    else match t.due_date with | some x => strLe d x | none => false

/-- Conjunction of the five chained `query.filter(...)` calls. -/
def passAll (p : ListParams) (t : TaskRec) : Bool :=
  qGuard p.q t && doneGuard p.is_done t && prGuard p.priority t &&
    beforeGuard p.due_before t && afterGuard p.due_after t

/-- The WHERE clause applied to the row list. -/
def applyFilters (p : ListParams) (l : List TaskRec) : List TaskRec :=
  l.filter (passAll p)

/-- Stable insertion into a sorted list (strict comparator). -/
def stableInsert (lt : TaskRec → TaskRec → Bool) (x : TaskRec) :
    List TaskRec → List TaskRec
  | [] => [x]
  | y :: ys => if lt y x then y :: stableInsert lt x ys else x :: y :: ys

/-- Deterministic stable sort modelling ORDER BY (ties keep insertion
order, the deterministic choice the spec leaves to the implementation). -/
def stableSort (lt : TaskRec → TaskRec → Bool) : List TaskRec → List TaskRec
  | [] => []
  | x :: xs => stableInsert lt x (stableSort lt xs)

/-- ORDER BY `created_at` ascending. -/
def ltCreatedAsc (a b : TaskRec) : Bool := strLt a.created_at b.created_at

/-- ORDER BY `due_date` ascending (NULLs first, as in SQLite). -/
def ltDueAsc (a b : TaskRec) : Bool := optStrLtNullsFirst a.due_date b.due_date

/-- ORDER BY `priority` ascending. -/
def ltPriorityAsc (a b : TaskRec) : Bool := decide (a.priority < b.priority)

/-- Sort-field dispatch of the handler (`else` branch is `priority`),
with `desc` reversing the comparator. -/
def sortTasks (srt ord : String) (l : List TaskRec) : List TaskRec :=
  let lt := if srt = "created_at" then ltCreatedAsc
            else if srt = "due_date" then ltDueAsc
            else ltPriorityAsc
  let lt2 := if ord = "desc" then (fun a b => lt b a) else lt
  stableSort lt2 l

/-- FastAPI `Query` constraint checks on `GET /tasks` parameters
(`priority` in [1,3], `limit` in [1,100]); these 422-style checks run
while parsing the request, before the handler body. -/
def checkListParams (p : ListParams) : List String :=
  (match p.priority with
   | none => []
   | some pr => if 1 ≤ pr ∧ pr ≤ 3 then [] else ["priority"]) ++
  (if 1 ≤ p.limit ∧ p.limit ≤ 100 then [] else ["limit"])

/-- `GET /tasks`: parameter parsing, the handler's sort/order whitelist
checks (400), then filter, sort, offset, limit. -/
def get_tasks (p : ListParams) (s : Store) : Except ApiError (List TaskRec) :=
  match checkListParams p with
  | [] =>
    if ¬ (p.sort = "created_at" ∨ p.sort = "due_date" ∨ p.sort = "priority") then
      .error (.invalidQueryParam "Invalid sort parameter. Use: created_at, due_date, priority")
    else if ¬ (p.order = "asc" ∨ p.order = "desc") then
      .error (.invalidQueryParam "Invalid order parameter. Use: asc, desc")
    else
      .ok (((sortTasks p.sort p.order (applyFilters p s.tasks)).drop p.offset).take p.limit)
  | errs => .error (.validation errs)

/-- One client request against the store. -/
inductive Event where
  | create (now : String) (inp : TaskCreateIn)
  | update (now : String) (i : Nat) (u : TaskUpdateIn)
  | delete (i : Nat)
deriving DecidableEq

/-- Effect of a request on the store; a failed request leaves it unchanged. -/
def stepStore (isoOk : String → Bool) (s : Store) : Event → Store
  | .create now inp =>
    match create_task isoOk now inp s with
    | .ok (_, s2) => s2
    | .error _ => s
  | .update now i u =>
    match update_task isoOk now i u s with
    | .ok (_, s2) => s2
    | .error _ => s
  | .delete i =>
    match delete_task i s with
    | .ok s2 => s2
    | .error _ => s

/-- The fresh database (SQLite's first autoincrement id is 1). -/
def emptyStore : Store := { tasks := [], nextId := 1 }

/-- Run a request trace from a given store. -/
def runFrom (isoOk : String → Bool) (s : Store) (tr : List Event) : Store :=
  tr.foldl (stepStore isoOk) s

/-- Run a request trace from the fresh database. -/
def runEvents (isoOk : String → Bool) (tr : List Event) : Store :=
  runFrom isoOk emptyStore tr

/-- Store instrumented with a ghost per-row flag recording whether the
row has been successfully updated since its creation. -/
structure GStore where
  tasks : List (TaskRec × Bool)
  nextId : Nat

/-- Row lookup on the instrumented store. -/
def gfind : List (TaskRec × Bool) → Nat → Option TaskRec
  | [], _ => none
  | p :: ps, i => if p.1.id = i then some p.1 else gfind ps i

/-- Instrumented row replacement: the updated row's flag becomes true. -/
def greplaceFirst (now : String) (uv : TaskUpdateV) :
    List (TaskRec × Bool) → Nat → List (TaskRec × Bool)
  | [], _ => []
  | p :: ps, i =>
    if p.1.id = i then (applyUpdate now uv p.1, true) :: ps
    else p :: greplaceFirst now uv ps i

/-- Instrumented row removal. -/
def gremoveFirst : List (TaskRec × Bool) → Nat → List (TaskRec × Bool)
  | [], _ => []
  | p :: ps, i => if p.1.id = i then ps else p :: gremoveFirst ps i

/-- Instrumented request effect, mirroring `stepStore`; a freshly
created row's flag is false. -/
def gstep (isoOk : String → Bool) (g : GStore) : Event → GStore
  | .create now inp =>
    match validate_create isoOk inp with
    | .ok t => { tasks := g.tasks ++ [(mkTaskRec g.nextId now t, false)],
                 nextId := g.nextId + 1 }
    | .error _ => g
  | .update now i u =>
    match validate_update isoOk u with
    | .ok uv =>
      match gfind g.tasks i with
      | some _ => { tasks := greplaceFirst now uv g.tasks i, nextId := g.nextId }
      | none => g
    | .error _ => g
  | .delete i =>
    match gfind g.tasks i with
    | some _ => { tasks := gremoveFirst g.tasks i, nextId := g.nextId }
    | none => g

/-- Run a request trace on the instrumented store. -/
def grunEvents (isoOk : String → Bool) (tr : List Event) : GStore :=
  tr.foldl (gstep isoOk) { tasks := [], nextId := 1 }

/-- Forget the ghost flags. -/
def eraseG (g : GStore) : Store :=
  { tasks := g.tasks.map (fun p => p.1), nextId := g.nextId }

/-- Row ids in row order. -/
def idsOf (l : List TaskRec) : List Nat := l.map (fun t => t.id)

/-- Store well-formedness: every id is below the autoincrement counter
and ids are pairwise distinct (primary key). -/
def StoreWF (s : Store) : Prop :=
  (∀ x ∈ idsOf s.tasks, x < s.nextId) ∧ (idsOf s.tasks).Nodup

/-- A concrete stand-in for the abstract ISO-8601 parser, used only to
instantiate closed examples. -/
def isoAlways : String → Bool := fun _ => true

/-- A found row is a member of the list and carries the looked-up id. -/
theorem findById_mem_id {l : List TaskRec} {i : Nat} {t : TaskRec}
    (h : findById l i = some t) : t ∈ l ∧ t.id = i := by
  induction l with
  | nil => simp [findById] at h
  | cons a as ih =>
    by_cases hid : a.id = i
    · simp [findById, hid] at h
      exact ⟨by simp [h], by rw [← h]; exact hid⟩
    · simp [findById, hid] at h
      rcases ih h with ⟨hm, hi⟩
      exact ⟨List.mem_cons_of_mem _ hm, hi⟩

/-- Looking up the replaced id after an in-place replacement finds the
replacement. -/
theorem findById_replaceFirst {l : List TaskRec} {i : Nat} {t t2 : TaskRec}
    (h : findById l i = some t) (h2 : t2.id = i) :
    findById (replaceFirst l i t2) i = some t2 := by
  induction l with
  | nil => simp [findById] at h
  | cons a as ih =>
    by_cases hid : a.id = i
    · simp [replaceFirst, hid, findById, h2]
    · simp [replaceFirst, hid, findById] at h ⊢
      exact ih h

/-- C1: the claim that `update(id, input)` with an unresolvable id and an
invalid payload reports NotFoundError is FALSE on the code: FastAPI
validates the `TaskUpdate` body while parsing the request, before the
handler's lookup, so the call reports the field validation error. -/
theorem c1_counterexample :
    findTask emptyStore 1 = none ∧
    update_task isoAlways "2025-01-02T00:00:00" 1 { title := some "ab" } emptyStore
      = Except.error (ApiError.validation ["title"]) ∧
    update_task isoAlways "2025-01-02T00:00:00" 1 { title := some "ab" } emptyStore
      ≠ Except.error ApiError.notFound := by decide

/-- C1 (amended): payload validation runs at request parsing, before the
not-found check on the id: an invalid payload yields its validation error
regardless of the id, and NotFoundError is reported exactly when the
payload passes validation and the id resolves to no Task. -/
theorem c1_theorem :
    (∀ (isoOk : String → Bool) (now : String) (i : Nat) (u : TaskUpdateIn)
       (s : Store) (e : ApiError),
       validate_update isoOk u = Except.error e →
       update_task isoOk now i u s = Except.error e) ∧
    (∀ (isoOk : String → Bool) (now : String) (i : Nat) (u : TaskUpdateIn)
       (s : Store) (uv : TaskUpdateV),
       validate_update isoOk u = Except.ok uv → findTask s i = none →
       update_task isoOk now i u s = Except.error ApiError.notFound) := by
  constructor
  · intro isoOk now i u s e h
    unfold update_task
    rw [h]
  · intro isoOk now i u s uv h1 h2
    unfold update_task
    rw [h1, h2]

/-- C1 witness: both branches of the amended claim at concrete inputs. -/
theorem c1_witness :
    update_task isoAlways "T" 1 { title := some "ab" } emptyStore
      = Except.error (ApiError.validation ["title"]) ∧
    update_task isoAlways "T" 1 { title := some "abc" } emptyStore
      = Except.error ApiError.notFound :=
  ⟨c1_theorem.1 isoAlways "T" 1 { title := some "ab" } emptyStore
      (ApiError.validation ["title"]) (by decide),
   c1_theorem.2 isoAlways "T" 1 { title := some "abc" } emptyStore
      { title := some "abc", details := none, is_done := none,
        priority := none, due_date := none } (by decide) (by decide)⟩

/-- Store holding one task created with non-empty details, used to
exercise the update path on concrete data. -/
def s2c : Store :=
  runEvents isoAlways
    [Event.create "2025-01-01T00:00:00" { title := "Test Task", details := some "xyz" }]

/-- C2: the claim that an update with `details = ""` stores null is FALSE
on the code: `TaskUpdate` has no `validate_details` validator, so the
empty string passes the length bound unchanged and is stored verbatim. -/
theorem c2_counterexample :
    update_task isoAlways "2025-01-02T00:00:00" 1 { details := some "" } s2c
      = Except.ok
          ({ id := 1, title := "Test Task", details := some "", is_done := 0,
             priority := 1, due_date := none,
             created_at := "2025-01-01T00:00:00",
             updated_at := some "2025-01-02T00:00:00" },
           { tasks := [{ id := 1, title := "Test Task", details := some "",
                         is_done := 0, priority := 1, due_date := none,
                         created_at := "2025-01-01T00:00:00",
                         updated_at := some "2025-01-02T00:00:00" }],
             nextId := 2 }) ∧
    update_task isoAlways "2025-01-02T00:00:00" 1 { details := some "" } s2c
      ≠ Except.ok
          ({ id := 1, title := "Test Task", details := none, is_done := 0,
             priority := 1, due_date := none,
             created_at := "2025-01-01T00:00:00",
             updated_at := some "2025-01-02T00:00:00" },
           { tasks := [{ id := 1, title := "Test Task", details := none,
                         is_done := 0, priority := 1, due_date := none,
                         created_at := "2025-01-01T00:00:00",
                         updated_at := some "2025-01-02T00:00:00" }],
             nextId := 2 }) := by decide

/-- C2 (amended): `validate_update` does not apply the create-side
details rule: a present `details` value within the 1000-character bound
is neither trimmed nor normalized, and an update with `details = d`
stores exactly `d` (for `d = ""`, the empty string, not null). -/
theorem c2_theorem (isoOk : String → Bool) (d : String) (hd : d.length ≤ 1000) :
    validate_update isoOk { details := some d }
      = Except.ok { title := none, details := some d, is_done := none,
                    priority := none, due_date := none } ∧
    ∀ (now : String) (i : Nat) (s : Store) (t : TaskRec),
      findTask s i = some t →
      update_task isoOk now i { details := some d } s =
        Except.ok ({ t with details := some d, updated_at := some now },
                   { tasks := replaceFirst s.tasks i
                                { t with details := some d, updated_at := some now },
                     nextId := s.nextId }) := by
  have h1 : validate_update isoOk { details := some d }
      = Except.ok { title := none, details := some d, is_done := none,
                    priority := none, due_date := none } := by
    have hlen : ¬ (d.length > 1000) := by omega
    unfold validate_update updateErrors fieldErrTitleU detailsFail priorityFailU dueFail
    simp [hlen]
  refine ⟨h1, ?_⟩
  intro now i s t ht
  unfold update_task
  rw [h1, ht]
  rfl

/-- C2 witness: the amended claim at `d = ""` on a concrete store. -/
theorem c2_witness :
    validate_update isoAlways { details := some "" }
      = Except.ok { title := none, details := some "", is_done := none,
                    priority := none, due_date := none } ∧
    update_task isoAlways "2025-01-02T00:00:00" 1 { details := some "" } s2c
      = Except.ok
          ({ id := 1, title := "Test Task", details := some "", is_done := 0,
             priority := 1, due_date := none,
             created_at := "2025-01-01T00:00:00",
             updated_at := some "2025-01-02T00:00:00" },
           { tasks := [{ id := 1, title := "Test Task", details := some "",
                         is_done := 0, priority := 1, due_date := none,
                         created_at := "2025-01-01T00:00:00",
                         updated_at := some "2025-01-02T00:00:00" }],
             nextId := 2 }) :=
  ⟨(c2_theorem isoAlways "" (by decide)).1,
   (c2_theorem isoAlways "" (by decide)).2 "2025-01-02T00:00:00" 1 s2c
     { id := 1, title := "Test Task", details := some "xyz", is_done := 0,
       priority := 1, due_date := none, created_at := "2025-01-01T00:00:00",
       updated_at := none } (by decide)⟩

/-- A title of raw length 201 whose trimmed length is 3. -/
def longTitle : String := "abc" ++ String.mk (List.replicate 198 ' ')

/-- C3: the claim that a title whose trimmed length lies in [3,200] is
always accepted is FALSE on the code: pydantic's `Field(max_length=200)`
bound runs on the RAW value before `validate_title` trims, so a
201-character title that trims to 3 characters is rejected. -/
theorem c3_counterexample :
    longTitle.length = 201 ∧ (pyStrip longTitle).length = 3 ∧
    validate_create isoAlways { title := longTitle }
      = Except.error (ApiError.validation ["title"]) ∧
    create_task isoAlways "2025-01-01T00:00:00" { title := longTitle } emptyStore
      = Except.error (ApiError.validation ["title"]) := by
  set_option maxRecDepth 10000 in decide

/-- The composite title check fails exactly outside the accepted range:
raw length in [3,200] and trimmed length at least 3. -/
theorem fieldErrTitle_false_iff (v : String) :
    fieldErrTitle v = false ↔
      (3 ≤ v.length ∧ v.length ≤ 200 ∧ 3 ≤ (pyStrip v).length) := by
  unfold fieldErrTitle
  split_ifs with h1 h2 h3 <;> simp <;> omega

/-- C3 (amended): with every other field absent, `create` succeeds iff
the RAW title length lies in [3,200] and the trimmed length is at least 3
(so trimmed length below 3 fails, raw length below 3 or above 200 fails
with a FieldValidationError on `title`, even when the trimmed length
would lie in [3,200]). -/
theorem c3_theorem (isoOk : String → Bool) (now : String) (s : Store) (title : String) :
    ((∃ r, create_task isoOk now { title := title } s = Except.ok r) ↔
      (3 ≤ title.length ∧ title.length ≤ 200 ∧ 3 ≤ (pyStrip title).length)) ∧
    (¬ (3 ≤ title.length ∧ title.length ≤ 200 ∧ 3 ≤ (pyStrip title).length) →
      create_task isoOk now { title := title } s
        = Except.error (ApiError.validation ["title"])) := by
  have hp : priorityFail 1 = false := by decide
  have herr : createErrors isoOk { title := title }
      = (if fieldErrTitle title then ["title"] else []) := by
    simp [createErrors, detailsFail, dueFail, hp]
  by_cases h : 3 ≤ title.length ∧ title.length ≤ 200 ∧ 3 ≤ (pyStrip title).length
  · have hft : fieldErrTitle title = false := (fieldErrTitle_false_iff title).2 h
    have hval : create_task isoOk now { title := title } s
        = Except.ok (mkTaskRec s.nextId now
            { title := pyStrip title, details := none, is_done := false,
              priority := 1, due_date := none },
            { tasks := s.tasks ++ [mkTaskRec s.nextId now
                { title := pyStrip title, details := none, is_done := false,
                  priority := 1, due_date := none }], nextId := s.nextId + 1 }) := by
      unfold create_task validate_create
      rw [herr, hft]
      rfl
    refine ⟨⟨fun _ => h, fun _ => ⟨_, hval⟩⟩, fun hc => absurd h hc⟩
  · have hft : fieldErrTitle title = true := by
      cases hb : fieldErrTitle title
      · exact absurd ((fieldErrTitle_false_iff title).1 hb) h
      · rfl
    have hval : create_task isoOk now { title := title } s
        = Except.error (ApiError.validation ["title"]) := by
      unfold create_task validate_create
      rw [herr, hft]
      rfl
    refine ⟨⟨fun hr => ?_, fun hx => absurd hx h⟩, fun _ => hval⟩
    rcases hr with ⟨r, hr⟩
    rw [hval] at hr
    simp at hr

/-- C3 witness: the amended claim at a rejected and an accepted title. -/
theorem c3_witness :
    create_task isoAlways "2025-01-01T00:00:00" { title := "ab" } emptyStore
      = Except.error (ApiError.validation ["title"]) ∧
    (∃ r, create_task isoAlways "2025-01-01T00:00:00" { title := "Buy milk" } emptyStore
      = Except.ok r) :=
  ⟨(c3_theorem isoAlways "2025-01-01T00:00:00" emptyStore "ab").2 (by decide),
   (c3_theorem isoAlways "2025-01-01T00:00:00" emptyStore "Buy milk").1.2
     (by decide)⟩

/-- C4: `update(id, {priority: 3})` on an existing Task changes only
`priority` and `updated_at`: `title`, `details`, `due_date`, `is_done`,
`id` and `created_at` are unchanged, `updated_at` becomes the (non-null)
current time, and the updated row is what the store then holds at `id`. -/
theorem c4_theorem (isoOk : String → Bool) (now : String) (i : Nat)
    (s : Store) (t : TaskRec) (h : findTask s i = some t) :
    update_task isoOk now i { priority := some 3 } s =
      Except.ok ({ t with priority := 3, updated_at := some now },
        { tasks := replaceFirst s.tasks i { t with priority := 3, updated_at := some now },
          nextId := s.nextId }) ∧
    ({ t with priority := 3, updated_at := some now } : TaskRec).title = t.title ∧
    ({ t with priority := 3, updated_at := some now } : TaskRec).details = t.details ∧
    ({ t with priority := 3, updated_at := some now } : TaskRec).due_date = t.due_date ∧
    ({ t with priority := 3, updated_at := some now } : TaskRec).is_done = t.is_done ∧
    ({ t with priority := 3, updated_at := some now } : TaskRec).id = t.id ∧
    ({ t with priority := 3, updated_at := some now } : TaskRec).created_at = t.created_at ∧
    ({ t with priority := 3, updated_at := some now } : TaskRec).priority = 3 ∧
    ({ t with priority := 3, updated_at := some now } : TaskRec).updated_at = some now ∧
    some now ≠ (none : Option String) ∧
    findTask { tasks := replaceFirst s.tasks i { t with priority := 3, updated_at := some now },
               nextId := s.nextId } i
      = some ({ t with priority := 3, updated_at := some now } : TaskRec) := by
  have hv : validate_update isoOk { priority := some 3 }
      = Except.ok { title := none, details := none, is_done := none,
                    priority := some 3, due_date := none } := by
    unfold validate_update updateErrors fieldErrTitleU detailsFail priorityFailU dueFail
    norm_num
  have hid : ({ t with priority := 3, updated_at := some now } : TaskRec).id = i :=
    (findById_mem_id h).2
  refine ⟨?_, rfl, rfl, rfl, rfl, rfl, rfl, rfl, rfl, by simp, ?_⟩
  · unfold update_task
    rw [hv, h]
    rfl
  · exact findById_replaceFirst h hid

/-- C4 witness: the frame property on a concrete store. -/
theorem c4_witness :
    update_task isoAlways "2025-06-01T00:00:00" 1 { priority := some 3 } s2c =
      Except.ok
        ({ id := 1, title := "Test Task", details := some "xyz", is_done := 0,
           priority := 3, due_date := none, created_at := "2025-01-01T00:00:00",
           updated_at := some "2025-06-01T00:00:00" },
         { tasks := [{ id := 1, title := "Test Task", details := some "xyz",
                       is_done := 0, priority := 3, due_date := none,
                       created_at := "2025-01-01T00:00:00",
                       updated_at := some "2025-06-01T00:00:00" }],
           nextId := 2 }) :=
  (c4_theorem isoAlways "2025-06-01T00:00:00" 1 s2c
    { id := 1, title := "Test Task", details := some "xyz", is_done := 0,
      priority := 1, due_date := none, created_at := "2025-01-01T00:00:00",
      updated_at := none } (by decide)).1

/-- Filtering with pointwise-equal predicates gives equal results. -/
theorem filter_ext (f g : TaskRec → Bool) (hfg : ∀ t, f t = g t) :
    ∀ l : List TaskRec, l.filter f = l.filter g := by
  intro l
  induction l with
  | nil => rfl
  | cons a as ih => simp [List.filter, hfg a, ih]

/-- C10: a supplied-but-empty `q` behaves exactly as an absent `q`:
`if q:` is false for the empty string, so the substring filter is
skipped and `list_tasks` returns the same result on every store. -/
theorem c10_theorem (p : ListParams) (s : Store) :
    get_tasks { p with q := some "" } s = get_tasks { p with q := none } s := by
  have hg : ∀ t, passAll { p with q := some "" } t = passAll { p with q := none } t := by
    intro t
    simp [passAll, qGuard]
  have hf : applyFilters { p with q := some "" } s.tasks
      = applyFilters { p with q := none } s.tasks :=
    filter_ext _ _ hg s.tasks
  unfold get_tasks
  rw [show checkListParams { p with q := some "" } = checkListParams { p with q := none } from rfl]
  cases checkListParams { p with q := none } with
  | nil =>
    simp only []
    rw [hf]
  | cons e es => rfl

/-- C6: with well-formed pagination/priority parameters, a `sort` value
outside the whitelist or an `order` value outside {asc, desc} makes
`list_tasks` fail with the invalid-query-parameter error (the 400
`HTTPException`), never with a field-validation error, and without
consulting the store: the result is identical on every store. -/
theorem c6_theorem (p : ListParams) (hpar : checkListParams p = [])
    (hbad : ¬ (p.sort = "created_at" ∨ p.sort = "due_date" ∨ p.sort = "priority") ∨
            ¬ (p.order = "asc" ∨ p.order = "desc")) :
    (∃ m, ∀ s : Store, get_tasks p s = Except.error (ApiError.invalidQueryParam m)) ∧
    (∀ (s : Store) (fs : List String),
       get_tasks p s ≠ Except.error (ApiError.validation fs)) ∧
    (∀ s1 s2 : Store, get_tasks p s1 = get_tasks p s2) := by
  by_cases hs : p.sort = "created_at" ∨ p.sort = "due_date" ∨ p.sort = "priority"
  · have ho : ¬ (p.order = "asc" ∨ p.order = "desc") := by tauto
    have hval : ∀ s : Store, get_tasks p s
        = Except.error (ApiError.invalidQueryParam "Invalid order parameter. Use: asc, desc") := by
      intro s
      unfold get_tasks
      rw [hpar]
      simp only []
      rw [if_neg (not_not_intro hs), if_pos ho]
    refine ⟨⟨_, hval⟩, fun s fs => ?_, fun s1 s2 => by rw [hval s1, hval s2]⟩
    rw [hval s]
    simp
  · have hval : ∀ s : Store, get_tasks p s
        = Except.error (ApiError.invalidQueryParam
            "Invalid sort parameter. Use: created_at, due_date, priority") := by
      intro s
      unfold get_tasks
      rw [hpar]
      simp only []
      rw [if_pos hs]
    refine ⟨⟨_, hval⟩, fun s fs => ?_, fun s1 s2 => by rw [hval s1, hval s2]⟩
    rw [hval s]
    simp

/-- C6 witness: `sort = "bogus"` at concrete stores. -/
theorem c6_witness :
    get_tasks { sort := "bogus" } emptyStore
      ≠ Except.error (ApiError.validation ["title"]) ∧
    get_tasks { sort := "bogus" } emptyStore = get_tasks { sort := "bogus" } s2c :=
  ⟨(c6_theorem { sort := "bogus" } (by decide) (Or.inl (by decide))).2.1 emptyStore ["title"],
   (c6_theorem { sort := "bogus" } (by decide) (Or.inl (by decide))).2.2 emptyStore s2c⟩

/-- Membership through stable insertion. -/
theorem mem_stableInsert (lt : TaskRec → TaskRec → Bool) (x a : TaskRec) :
    ∀ l : List TaskRec, a ∈ stableInsert lt x l ↔ a = x ∨ a ∈ l := by
  intro l
  induction l with
  | nil => simp [stableInsert]
  | cons y ys ih =>
    by_cases h : lt y x
    · simp [stableInsert, h, ih]
      tauto
    · simp [stableInsert, h]

/-- Sorting does not change membership. -/
theorem mem_stableSort (lt : TaskRec → TaskRec → Bool) (a : TaskRec) :
    ∀ l : List TaskRec, a ∈ stableSort lt l ↔ a ∈ l := by
  intro l
  induction l with
  | nil => simp [stableSort]
  | cons x xs ih =>
    simp [stableSort, mem_stableInsert, ih]

/-- ORDER BY does not change membership, whatever the sort key. -/
theorem mem_sortTasks (srt ord : String) (a : TaskRec) (l : List TaskRec) :
    a ∈ sortTasks srt ord l ↔ a ∈ l := by
  unfold sortTasks
  exact mem_stableSort _ a l

/-- C9 (amended): whenever `due_before` or `due_after` is supplied with a
NON-EMPTY value, every Task with a null `due_date` is excluded from the
result (the SQL comparison with NULL is unknown); an empty supplied value
is falsy in Python and skips the filter entirely. -/
theorem c9_theorem (p : ListParams) (s : Store) (res : List TaskRec) (t : TaskRec)
    (hdue : (∃ d, p.due_before = some d ∧ d ≠ "") ∨
            (∃ d, p.due_after = some d ∧ d ≠ ""))
    (hok : get_tasks p s = Except.ok res) (hmem : t ∈ res) : t.due_date ≠ none := by
  unfold get_tasks at hok
  cases hc : checkListParams p with
  | cons e es => rw [hc] at hok; simp at hok
  | nil =>
    rw [hc] at hok
    simp only [] at hok
    by_cases hsrt : p.sort = "created_at" ∨ p.sort = "due_date" ∨ p.sort = "priority"
    · rw [if_neg (not_not_intro hsrt)] at hok
      by_cases hord : p.order = "asc" ∨ p.order = "desc"
      · rw [if_neg (not_not_intro hord)] at hok
        have hres : res = ((sortTasks p.sort p.order (applyFilters p s.tasks)).drop p.offset).take p.limit := by
          have := hok
          simp at this
          exact this.symm
        rw [hres] at hmem
        have h1 : t ∈ (sortTasks p.sort p.order (applyFilters p s.tasks)).drop p.offset :=
          List.mem_of_mem_take hmem
        have h2 : t ∈ sortTasks p.sort p.order (applyFilters p s.tasks) :=
          List.mem_of_mem_drop h1
        have h3 : t ∈ applyFilters p s.tasks := (mem_sortTasks _ _ _ _).1 h2
        have h4 : passAll p t = true := (List.mem_filter.1 h3).2
        simp only [passAll, Bool.and_eq_true] at h4
        intro hnone
        rcases hdue with ⟨d, hd, hne⟩ | ⟨d, hd, hne⟩
        · have hb : beforeGuard p.due_before t = true := h4.1.2
          rw [hd] at hb
          simp [beforeGuard, hne, hnone] at hb
        · have hb : afterGuard p.due_after t = true := h4.2
          rw [hd] at hb
          simp [afterGuard, hne, hnone] at hb
      · rw [if_pos hord] at hok
        simp at hok
    · rw [if_pos hsrt] at hok
      simp at hok

/-- Store with a single task that has no due date. -/
def s9n : Store :=
  runEvents isoAlways [Event.create "2025-01-01T00:00:00" { title := "No Due" }]

/-- C9: the claim as stated is FALSE on the code: supplying
`due_before = ""` (an empty but supplied value) is falsy for `if
due_before:`, the filter is skipped, and a Task with null `due_date`
appears in the result. -/
theorem c9_counterexample :
    get_tasks { due_before := some "" } s9n
      = Except.ok [{ id := 1, title := "No Due", details := none, is_done := 0,
                     priority := 1, due_date := none,
                     created_at := "2025-01-01T00:00:00", updated_at := none }] ∧
    ({ id := 1, title := "No Due", details := none, is_done := 0,
       priority := 1, due_date := none, created_at := "2025-01-01T00:00:00",
       updated_at := none } : TaskRec).due_date = none := by decide

/-- Store with a single task that has a due date. -/
def s9d : Store :=
  runEvents isoAlways
    [Event.create "2025-01-01T00:00:00" { title := "Due Task", due_date := some "2025-12-31T00:00:00" }]

/-- C9 witness: the amended claim at a concrete non-empty `due_before`. -/
theorem c9_witness :
    ({ id := 1, title := "Due Task", details := none, is_done := 0,
       priority := 1, due_date := some "2025-12-31T00:00:00",
       created_at := "2025-01-01T00:00:00", updated_at := none } : TaskRec).due_date
      ≠ none :=
  c9_theorem { due_before := some "2026-01-01T00:00:00" } s9d
    [{ id := 1, title := "Due Task", details := none, is_done := 0,
       priority := 1, due_date := some "2025-12-31T00:00:00",
       created_at := "2025-01-01T00:00:00", updated_at := none }]
    { id := 1, title := "Due Task", details := none, is_done := 0,
      priority := 1, due_date := some "2025-12-31T00:00:00",
      created_at := "2025-01-01T00:00:00", updated_at := none }
    (Or.inl ⟨"2026-01-01T00:00:00", rfl, by decide⟩) (by decide) (by decide)

/-- Filtering with the constant-true predicate keeps every row. -/
theorem filter_all_true : ∀ l : List TaskRec, (l.filter fun _ => true) = l := by
  intro l
  induction l with
  | nil => rfl
  | cons a as ih => simp [List.filter, ih]

/-- Store obtained by five consecutive creates. -/
def s5c : Store := runEvents isoAlways [
  Event.create "2025-01-01T00:00:01" { title := "Task 1" },
  Event.create "2025-01-01T00:00:02" { title := "Task 2" },
  Event.create "2025-01-01T00:00:03" { title := "Task 3" },
  Event.create "2025-01-01T00:00:04" { title := "Task 4" },
  Event.create "2025-01-01T00:00:05" { title := "Task 5" }]

/-- C7: the `GET /tasks` defaults are `sort=created_at`, `order=asc`,
`offset=0`, `limit=10` with no filters; with no filters every record is
considered and the result is exactly `take limit (drop offset (sort all))`
— offset and limit apply strictly after filtering and sorting (limit
bounded to [1,100] by the query constraint); concretely, after five
creates, `limit=2, offset=2` returns exactly the 3rd and 4th records in
the current sort order. -/
theorem c7_theorem :
    (({} : ListParams).sort = "created_at" ∧ ({} : ListParams).order = "asc" ∧
     ({} : ListParams).offset = 0 ∧ ({} : ListParams).limit = 10 ∧
     ({} : ListParams).q = none ∧ ({} : ListParams).is_done = none ∧
     ({} : ListParams).priority = none ∧ ({} : ListParams).due_before = none ∧
     ({} : ListParams).due_after = none) ∧
    (∀ (s : Store) (o l : Nat), 1 ≤ l → l ≤ 100 →
       get_tasks { offset := o, limit := l } s =
         Except.ok (((stableSort ltCreatedAsc s.tasks).drop o).take l)) ∧
    get_tasks { offset := 2, limit := 2 } s5c = Except.ok [
      { id := 3, title := "Task 3", details := none, is_done := 0, priority := 1,
        due_date := none, created_at := "2025-01-01T00:00:03", updated_at := none },
      { id := 4, title := "Task 4", details := none, is_done := 0, priority := 1,
        due_date := none, created_at := "2025-01-01T00:00:04", updated_at := none }] := by
  refine ⟨by decide, ?_, by set_option maxRecDepth 20000 in decide⟩
  intro s o l h1 h2
  have hpar : checkListParams { offset := o, limit := l } = [] := by
    simp [checkListParams, h1, h2]
  have hfa : applyFilters { offset := o, limit := l } s.tasks = s.tasks := by
    have hp : passAll ({ offset := o, limit := l } : ListParams) = fun _ => true := by
      funext t
      rfl
    rw [applyFilters, hp, filter_all_true]
  unfold get_tasks
  rw [hpar]
  simp only []
  rw [hfa]
  simp [sortTasks]
  rw [if_neg (by decide : ¬ ("asc" = "desc"))]

/-- C7 witness: the general pagination equation at a concrete store. -/
theorem c7_witness :
    get_tasks { offset := 0, limit := 10 } s2c =
      Except.ok (((stableSort ltCreatedAsc s2c.tasks).drop 0).take 10) :=
  c7_theorem.2.1 s2c 0 10 (by decide) (by decide)

/-- Ghost lookup agrees with lookup on the erased row list. -/
theorem gfind_eq (i : Nat) :
    ∀ l : List (TaskRec × Bool), gfind l i = findById (l.map (fun p => p.1)) i := by
  intro l
  induction l with
  | nil => rfl
  | cons a as ih =>
    by_cases h : a.1.id = i <;> simp [gfind, findById, h, ih]

/-- Erasing the ghost flags commutes with instrumented replacement. -/
theorem map_greplaceFirst (now : String) (uv : TaskUpdateV) (i : Nat) (t : TaskRec) :
    ∀ l : List (TaskRec × Bool),
      findById (l.map (fun p => p.1)) i = some t →
      (greplaceFirst now uv l i).map (fun p => p.1) =
        replaceFirst (l.map (fun p => p.1)) i (applyUpdate now uv t) := by
  intro l
  induction l with
  | nil => intro h; simp [findById] at h
  | cons a as ih =>
    intro h
    by_cases hid : a.1.id = i
    · simp [findById, hid] at h
      have hti : t.id = i := by rw [← h]; exact hid
      simp [greplaceFirst, replaceFirst, hid, h, hti]
    · simp [findById, hid] at h
      simp [greplaceFirst, replaceFirst, hid, ih h]

/-- Erasing the ghost flags commutes with instrumented removal. -/
theorem map_gremoveFirst (i : Nat) :
    ∀ l : List (TaskRec × Bool),
      (gremoveFirst l i).map (fun p => p.1) = removeFirst (l.map (fun p => p.1)) i := by
  intro l
  induction l with
  | nil => rfl
  | cons a as ih =>
    by_cases h : a.1.id = i <;> simp [gremoveFirst, removeFirst, h, ih]

/-- The instrumented step is the real step seen through erasure. -/
theorem gstep_erase (isoOk : String → Bool) (g : GStore) (e : Event) :
    eraseG (gstep isoOk g e) = stepStore isoOk (eraseG g) e := by
  cases e with
  | create now inp =>
    unfold gstep stepStore create_task
    cases hv : validate_create isoOk inp with
    | error e0 => simp [hv, eraseG]
    | ok t => simp [hv, eraseG, mkTaskRec]
  | update now i u =>
    unfold gstep stepStore update_task findTask
    cases hv : validate_update isoOk u with
    | error e0 => simp [hv, eraseG]
    | ok uv =>
      cases hf : gfind g.tasks i with
      | none =>
        have hf2 : findById (g.tasks.map (fun p => p.1)) i = none := by
          rw [← gfind_eq]; exact hf
        simp [hv, eraseG, hf, hf2]
      | some t =>
        have hf2 : findById (g.tasks.map (fun p => p.1)) i = some t := by
          rw [← gfind_eq]; exact hf
        simp [hv, eraseG, hf, hf2, map_greplaceFirst now uv i t g.tasks hf2]
  | delete i =>
    unfold gstep stepStore delete_task findTask
    cases hf : gfind g.tasks i with
    | none =>
      have hf2 : findById (g.tasks.map (fun p => p.1)) i = none := by
        rw [← gfind_eq]; exact hf
      simp [eraseG, hf, hf2]
    | some t =>
      have hf2 : findById (g.tasks.map (fun p => p.1)) i = some t := by
        rw [← gfind_eq]; exact hf
      simp [eraseG, hf, hf2, map_gremoveFirst]


/-- Erasure commutes with running a whole trace. -/
theorem erase_foldl (isoOk : String → Bool) :
    ∀ (tr : List Event) (g : GStore),
      eraseG (tr.foldl (gstep isoOk) g) = tr.foldl (stepStore isoOk) (eraseG g) := by
  intro tr
  induction tr with
  | nil => intro g; rfl
  | cons e es ih =>
    intro g
    rw [List.foldl_cons, List.foldl_cons, ih, gstep_erase]

/-- The ghost invariant: a row's `updated_at` is null exactly when its
modification flag is unset. -/
def GInv (l : List (TaskRec × Bool)) : Prop :=
  ∀ p ∈ l, (p.1.updated_at = none ↔ p.2 = false)

/-- A row of an instrumented replacement is an old row or the updated one. -/
theorem mem_greplaceFirst {now : String} {uv : TaskUpdateV} {i : Nat}
    {p : TaskRec × Bool} :
    ∀ {l : List (TaskRec × Bool)}, p ∈ greplaceFirst now uv l i →
      p ∈ l ∨ ∃ q : TaskRec, p = (applyUpdate now uv q, true) := by
  intro l
  induction l with
  | nil => intro h; simp [greplaceFirst] at h
  | cons a as ih =>
    intro h
    by_cases hid : a.1.id = i
    · rw [greplaceFirst] at h
      rw [if_pos hid] at h
      rcases List.mem_cons.1 h with h2 | h2
      · exact Or.inr ⟨a.1, h2⟩
      · exact Or.inl (List.mem_cons_of_mem _ h2)
    · rw [greplaceFirst] at h
      rw [if_neg hid] at h
      rcases List.mem_cons.1 h with h2 | h2
      · exact Or.inl (by simp [h2])
      · rcases ih h2 with h3 | h3
        · exact Or.inl (List.mem_cons_of_mem _ h3)
        · exact Or.inr h3

/-- A row of an instrumented removal was already present. -/
theorem mem_gremoveFirst {i : Nat} {p : TaskRec × Bool} :
    ∀ {l : List (TaskRec × Bool)}, p ∈ gremoveFirst l i → p ∈ l := by
  intro l
  induction l with
  | nil => intro h; simp [gremoveFirst] at h
  | cons a as ih =>
    intro h
    by_cases hid : a.1.id = i
    · rw [gremoveFirst, if_pos hid] at h
      exact List.mem_cons_of_mem _ h
    · rw [gremoveFirst, if_neg hid] at h
      rcases List.mem_cons.1 h with h2 | h2
      · simp [h2]
      · exact List.mem_cons_of_mem _ (ih h2)

/-- Every instrumented step preserves the ghost invariant. -/
theorem ginv_step (isoOk : String → Bool) (g : GStore) (e : Event)
    (h : GInv g.tasks) : GInv (gstep isoOk g e).tasks := by
  cases e with
  | create now inp =>
    unfold gstep
    cases hv : validate_create isoOk inp with
    | error e0 => simp only [hv]; exact h
    | ok t =>
      simp only [hv]
      intro p hp
      rcases List.mem_append.1 hp with h2 | h2
      · exact h p h2
      · simp at h2
        simp [h2, mkTaskRec]
  | update now i u =>
    unfold gstep
    cases hv : validate_update isoOk u with
    | error e0 => simp only [hv]; exact h
    | ok uv =>
      cases hf : gfind g.tasks i with
      | none => simp only [hv, hf]; exact h
      | some t =>
        simp only [hv, hf]
        intro p hp
        rcases mem_greplaceFirst hp with h2 | ⟨q, h2⟩
        · exact h p h2
        · simp [h2, applyUpdate]
  | delete i =>
    unfold gstep
    cases hf : gfind g.tasks i with
    | none => simp only [hf]; exact h
    | some t =>
      simp only [hf]
      intro p hp
      exact h p (mem_gremoveFirst hp)

/-- The ghost invariant holds along any trace. -/
theorem ginv_foldl (isoOk : String → Bool) :
    ∀ (tr : List Event) (g : GStore), GInv g.tasks →
      GInv ((tr.foldl (gstep isoOk) g)).tasks := by
  intro tr
  induction tr with
  | nil => intro g h; exact h
  | cons e es ih =>
    intro g h
    rw [List.foldl_cons]
    exact ih _ (ginv_step isoOk g e h)

/-- C5: the instrumented run erases to the real run, and in every
reachable store a row's `updated_at` is null exactly when the row has
never been successfully updated since creation (create leaves it null;
every successful update sets it to the current time, whatever the
payload contains). -/
theorem c5_theorem (isoOk : String → Bool) (tr : List Event) :
    eraseG (grunEvents isoOk tr) = runEvents isoOk tr ∧
    ∀ p ∈ (grunEvents isoOk tr).tasks, (p.1.updated_at = none ↔ p.2 = false) := by
  constructor
  · unfold grunEvents runEvents runFrom
    rw [erase_foldl]
    rfl
  · exact ginv_foldl isoOk tr _ (fun p hp => by simp at hp)

/-- C5 witness: a create followed by an update marks the row modified and
non-null, at concrete inputs. -/
theorem c5_witness :
    (({ id := 1, title := "Test Task", details := none, is_done := 1,
        priority := 1, due_date := none, created_at := "2025-01-01T00:00:00",
        updated_at := some "2025-01-02T00:00:00" } : TaskRec).updated_at = none
      ↔ (true = false)) :=
  (c5_theorem isoAlways
      [Event.create "2025-01-01T00:00:00" { title := "Test Task" },
       Event.update "2025-01-02T00:00:00" 1 { is_done := some true }]).2
    ({ id := 1, title := "Test Task", details := none, is_done := 1,
       priority := 1, due_date := none, created_at := "2025-01-01T00:00:00",
       updated_at := some "2025-01-02T00:00:00" }, true) (by decide)

/-- Lookup misses exactly the ids that are not stored. -/
theorem findById_none_iff : ∀ (l : List TaskRec) (i : Nat),
    findById l i = none ↔ i ∉ idsOf l := by
  intro l i
  induction l with
  | nil => simp [findById, idsOf]
  | cons a as ih =>
    have hc : idsOf (a :: as) = a.id :: idsOf as := rfl
    rw [hc]
    by_cases h : a.id = i
    · rw [show findById (a :: as) i = some a from by simp [findById, h]]
      simp [h]
    · rw [show findById (a :: as) i = findById as i from by simp [findById, h], ih]
      simp only [List.mem_cons, not_or]
      constructor
      · intro hni
        exact ⟨fun he => h he.symm, hni⟩
      · intro hni
        exact hni.2

/-- In-place replacement with a same-id row keeps the stored id list. -/
theorem idsOf_replaceFirst (i : Nat) (t2 : TaskRec) (h : t2.id = i) :
    ∀ l : List TaskRec, idsOf (replaceFirst l i t2) = idsOf l := by
  intro l
  induction l with
  | nil => rfl
  | cons a as ih =>
    by_cases hid : a.id = i
    · simp [replaceFirst, hid, idsOf, h]
    · simp [replaceFirst, hid, idsOf] at ih ⊢
      exact ih

/-- Removal yields a sublist of the rows. -/
theorem removeFirst_sublist : ∀ (l : List TaskRec) (i : Nat),
    List.Sublist (removeFirst l i) l := by
  intro l i
  induction l with
  | nil => simp [removeFirst]
  | cons a as ih =>
    by_cases hid : a.id = i
    · rw [removeFirst, if_pos hid]
      exact List.Sublist.cons a (List.Sublist.refl as)
    · rw [removeFirst, if_neg hid]
      exact List.Sublist.cons₂ a ih

/-- With distinct stored ids, removing an id removes every trace of it. -/
theorem not_mem_ids_removeFirst (i : Nat) :
    ∀ l : List TaskRec, (idsOf l).Nodup → i ∉ idsOf (removeFirst l i) := by
  intro l
  induction l with
  | nil => intro _; simp [removeFirst, idsOf]
  | cons a as ih =>
    intro hn
    have hn2 : (a.id ∉ idsOf as) ∧ (idsOf as).Nodup := by
      simpa [idsOf] using hn
    by_cases hid : a.id = i
    · rw [removeFirst, if_pos hid]
      rw [← hid]
      exact hn2.1
    · rw [removeFirst, if_neg hid]
      simp [idsOf]
      exact ⟨fun he => hid he.symm, by simpa [idsOf] using ih hn2.2⟩

/-- Every request preserves store well-formedness and never decreases
the autoincrement counter. -/
theorem step_wf (isoOk : String → Bool) (e : Event) (s : Store) (h : StoreWF s) :
    StoreWF (stepStore isoOk s e) ∧ s.nextId ≤ (stepStore isoOk s e).nextId := by
  obtain ⟨hb, hn⟩ := h
  cases e with
  | create now inp =>
    unfold stepStore create_task
    cases hv : validate_create isoOk inp with
    | error e0 => simp only [hv]; exact ⟨⟨hb, hn⟩, Nat.le_refl _⟩
    | ok t =>
      simp only [hv]
      have hids : idsOf (s.tasks ++ [mkTaskRec s.nextId now t])
          = idsOf s.tasks ++ [s.nextId] := by
        simp [idsOf, mkTaskRec]
      refine ⟨⟨?_, ?_⟩, Nat.le_succ _⟩
      · intro x hx
        rw [hids] at hx
        rcases List.mem_append.1 hx with h2 | h2
        · exact Nat.lt_trans (hb x h2) (Nat.lt_succ_self _)
        · simp at h2
          show x < s.nextId + 1
          omega
      · rw [hids]
        refine List.Nodup.append hn (List.nodup_singleton _) ?_
        intro x hx1 hx2
        simp at hx2
        have := hb x hx1
        omega
  | update now i u =>
    unfold stepStore update_task
    cases hv : validate_update isoOk u with
    | error e0 => simp only [hv]; exact ⟨⟨hb, hn⟩, Nat.le_refl _⟩
    | ok uv =>
      cases hf : findTask s i with
      | none => simp only [hv, hf]; exact ⟨⟨hb, hn⟩, Nat.le_refl _⟩
      | some t =>
        simp only [hv, hf]
        have hti : (applyUpdate now uv t).id = i := (findById_mem_id hf).2
        have hids := idsOf_replaceFirst i (applyUpdate now uv t) hti s.tasks
        refine ⟨⟨?_, ?_⟩, Nat.le_refl _⟩
        · intro x hx
          rw [hids] at hx
          exact hb x hx
        · rw [hids]
          exact hn
  | delete i =>
    unfold stepStore delete_task
    cases hf : findTask s i with
    | none => simp only [hf]; exact ⟨⟨hb, hn⟩, Nat.le_refl _⟩
    | some t =>
      simp only [hf]
      have hsub : List.Sublist (idsOf (removeFirst s.tasks i)) (idsOf s.tasks) := by
        unfold idsOf
        exact (removeFirst_sublist s.tasks i).map (fun t => t.id)
      refine ⟨⟨?_, ?_⟩, Nat.le_refl _⟩
      · intro x hx
        exact hb x (hsub.subset hx)
      · exact hn.sublist hsub

/-- An id below the counter that is absent stays absent across a request:
creates allocate fresh higher ids, updates keep ids, deletes only remove. -/
theorem step_absent (isoOk : String → Bool) (e : Event) (s : Store) (i : Nat)
    (_hwf : StoreWF s) (hlt : i < s.nextId)
    (habs : findById s.tasks i = none) :
    findById (stepStore isoOk s e).tasks i = none := by
  rw [findById_none_iff] at habs ⊢
  cases e with
  | create now inp =>
    unfold stepStore create_task
    cases hv : validate_create isoOk inp with
    | error e0 => simp only [hv]; exact habs
    | ok t =>
      simp only [hv]
      have hids : idsOf (s.tasks ++ [mkTaskRec s.nextId now t])
          = idsOf s.tasks ++ [s.nextId] := by
        simp [idsOf, mkTaskRec]
      rw [hids]
      intro hx
      rcases List.mem_append.1 hx with h2 | h2
      · exact habs h2
      · simp at h2
        omega
  | update now j u =>
    unfold stepStore update_task
    cases hv : validate_update isoOk u with
    | error e0 => simp only [hv]; exact habs
    | ok uv =>
      cases hf : findTask s j with
      | none => simp only [hv, hf]; exact habs
      | some t =>
        simp only [hv, hf]
        have htj : (applyUpdate now uv t).id = j := (findById_mem_id hf).2
        rw [idsOf_replaceFirst j (applyUpdate now uv t) htj s.tasks]
        exact habs
  | delete j =>
    unfold stepStore delete_task
    cases hf : findTask s j with
    | none => simp only [hf]; exact habs
    | some t =>
      simp only [hf]
      have hsub : List.Sublist (idsOf (removeFirst s.tasks j)) (idsOf s.tasks) := by
        unfold idsOf
        exact (removeFirst_sublist s.tasks j).map (fun t => t.id)
      exact fun hx => habs (hsub.subset hx)

/-- Well-formedness and counter monotonicity along any trace. -/
theorem runFrom_preserves (isoOk : String → Bool) :
    ∀ (tr : List Event) (s : Store), StoreWF s →
      StoreWF (runFrom isoOk s tr) ∧ s.nextId ≤ (runFrom isoOk s tr).nextId := by
  intro tr
  induction tr with
  | nil => intro s h; exact ⟨h, Nat.le_refl _⟩
  | cons e es ih =>
    intro s h
    have heq : runFrom isoOk s (e :: es) = runFrom isoOk (stepStore isoOk s e) es := rfl
    rw [heq]
    obtain ⟨h1, h2⟩ := step_wf isoOk e s h
    obtain ⟨h3, h4⟩ := ih (stepStore isoOk s e) h1
    exact ⟨h3, Nat.le_trans h2 h4⟩

/-- An absent id below the counter stays absent along any trace. -/
theorem runFrom_absent (isoOk : String → Bool) (i : Nat) :
    ∀ (tr : List Event) (s : Store), StoreWF s → i < s.nextId →
      findById s.tasks i = none →
      findById (runFrom isoOk s tr).tasks i = none := by
  intro tr
  induction tr with
  | nil => intro s _ _ h; exact h
  | cons e es ih =>
    intro s hwf hlt habs
    have heq : runFrom isoOk s (e :: es) = runFrom isoOk (stepStore isoOk s e) es := rfl
    rw [heq]
    exact ih _ (step_wf isoOk e s hwf).1
      (Nat.lt_of_lt_of_le hlt (step_wf isoOk e s hwf).2)
      (step_absent isoOk e s i hwf hlt habs)

/-- The fresh database is well-formed. -/
theorem wf_empty : StoreWF emptyStore := by
  constructor <;> simp [emptyStore, idsOf]

/-- Every reachable store is well-formed. -/
theorem run_wf (isoOk : String → Bool) (tr : List Event) :
    StoreWF (runEvents isoOk tr) :=
  (runFrom_preserves isoOk tr emptyStore wf_empty).1

/-- C8: after a successful `delete(id)` on a reachable store, `get(id)`
fails with NotFoundError immediately and after any further trace of
requests (ids are never reused: fresh ids come from the monotone
counter); and `delete(id)` on an absent id fails with NotFoundError and
leaves the store unchanged. -/
theorem c8_theorem (isoOk : String → Bool) :
    (∀ (tr : List Event) (i : Nat) (s2 : Store),
       delete_task i (runEvents isoOk tr) = Except.ok s2 →
       get_task i s2 = Except.error ApiError.notFound ∧
       ∀ tr2 : List Event,
         get_task i (runFrom isoOk s2 tr2) = Except.error ApiError.notFound) ∧
    (∀ (s : Store) (i : Nat), findTask s i = none →
       delete_task i s = Except.error ApiError.notFound ∧
       stepStore isoOk s (Event.delete i) = s) := by
  constructor
  · intro tr i s2 hdel
    obtain ⟨hb, hn⟩ := run_wf isoOk tr
    unfold delete_task at hdel
    cases hf : findTask (runEvents isoOk tr) i with
    | none => rw [hf] at hdel; simp at hdel
    | some t =>
      rw [hf] at hdel
      simp at hdel
      have hmem := findById_mem_id hf
      have hids : i ∈ idsOf (runEvents isoOk tr).tasks := by
        have h3 : t.id ∈ idsOf (runEvents isoOk tr).tasks := by
          unfold idsOf
          exact List.mem_map_of_mem (fun t => t.id) hmem.1
        rw [hmem.2] at h3
        exact h3
      have hlt : i < (runEvents isoOk tr).nextId := hb i hids
      have habs : findById (removeFirst (runEvents isoOk tr).tasks i) i = none :=
        (findById_none_iff _ _).2 (not_mem_ids_removeFirst i _ hn)
      have hwf2 : StoreWF { tasks := removeFirst (runEvents isoOk tr).tasks i,
                            nextId := (runEvents isoOk tr).nextId } := by
        have hsub : List.Sublist (idsOf (removeFirst (runEvents isoOk tr).tasks i))
            (idsOf (runEvents isoOk tr).tasks) := by
          unfold idsOf
          exact (removeFirst_sublist (runEvents isoOk tr).tasks i).map (fun t => t.id)
        exact ⟨fun x hx => hb x (hsub.subset hx), hn.sublist hsub⟩
      subst hdel
      constructor
      · unfold get_task findTask
        rw [habs]
      · intro tr2
        have habs2 := runFrom_absent isoOk i tr2 _ hwf2 hlt habs
        unfold get_task findTask
        rw [habs2]
  · intro s i h
    constructor
    · unfold delete_task
      rw [h]
    · unfold stepStore delete_task
      simp only [h]

/-- C8 witness: create, delete, then look up, also after another create;
and delete of a missing id, at concrete inputs. -/
theorem c8_witness :
    get_task 1 { tasks := [], nextId := 2 } = Except.error ApiError.notFound ∧
    get_task 1 (runFrom isoAlways { tasks := [], nextId := 2 }
        [Event.create "2025-01-02T00:00:00" { title := "Another One" }])
      = Except.error ApiError.notFound ∧
    delete_task 5 emptyStore = Except.error ApiError.notFound ∧
    stepStore isoAlways emptyStore (Event.delete 5) = emptyStore :=
  ⟨((c8_theorem isoAlways).1 [Event.create "2025-01-01T00:00:00" { title := "Test Task" }]
      1 { tasks := [], nextId := 2 } (by decide)).1,
   ((c8_theorem isoAlways).1 [Event.create "2025-01-01T00:00:00" { title := "Test Task" }]
      1 { tasks := [], nextId := 2 } (by decide)).2
     [Event.create "2025-01-02T00:00:00" { title := "Another One" }],
   ((c8_theorem isoAlways).2 emptyStore 5 (by decide)).1,
   ((c8_theorem isoAlways).2 emptyStore 5 (by decide)).2⟩
